import Mathlib

/-!
Shallow embedding of `MSLync/MSLyncURLandUpdateInfoProvider.py` together with
proofs about the claims of its specification.

Python strings are modelled as `List Char`; the error outcomes of a run are an
explicit `ProcessorError` (with a structured message payload) or one of the
unhandled Python exceptions the code can die with (`NameError` from an unbound
local, `IndexError` from indexing an empty list).
-/

namespace MSLync

/-- Python value appearing in the `Min OS` / `Max OS` plist fields:
either an integer or a string (kept as a list of characters). -/
inductive VValue where
  | int (n : Int)
  | str (s : List Char)
deriving DecidableEq, Repr

/-- Structured payloads of the `ProcessorError` messages raised by the provider. -/
inductive PyMsg where
  | unexpectedTriggerCondition (title : List Char) (cond : List String)
  | missingTrigger (title : List Char)
  | versionNotFound (version : String) (titles : List (List Char))
  | unexpectedValue (value : VValue)
deriving DecidableEq, Repr

/-- Failure outcomes of the Python code: an explicit `ProcessorError`,
or an unhandled `NameError` / `IndexError`. -/
inductive PyErr where
  | processorError (msg : PyMsg)
  | nameError
  | indexError
deriving DecidableEq, Repr

/-- Whether a failure is a deliberate, descriptive `ProcessorError` (as opposed
to an unhandled generic Python exception). -/
def isProcessorError : PyErr → Bool
  | .processorError _ => true
  | _ => false

instance {ε : Type} {α : Type} [DecidableEq ε] [DecidableEq α] :
    DecidableEq (Except ε α) := fun a b =>
  match a, b with
  | .ok x, .ok y => decidable_of_iff (x = y) (by simp)
  | .error x, .error y => decidable_of_iff (x = y) (by simp)
  | .ok _, .error _ => isFalse (by simp)
  | .error _, .ok _ => isFalse (by simp)

/-- A trigger descriptor from the `Triggers` mapping of a feed entry. -/
structure Trigger where
  file : Option String
  versions : List String
deriving DecidableEq, Repr

/-- One metadata entry of the update feed. -/
structure Item where
  title : List Char
  date : Nat
  location : String
  payload : String
  shortDescription : String
  minOS : VValue
  maxOS : VValue
  triggerCondition : List String
  triggers : List (String × Trigger)
deriving DecidableEq, Repr

/-! ### The version codec (`valueToOSVersionString`) -/

def digVal (c : Char) : Nat := c.toNat - '0'.toNat

/-- Value of a run of decimal digit characters; `none` if a non-digit occurs. -/
def decDigitsVal : List Char → Nat → Option Nat
  | [], acc => some acc
  | c :: cs, acc => if c.isDigit then decDigitsVal cs (acc * 10 + digVal c) else none

/-- Embedding of Python `int(s)` (base 10) on a character list: an optional
sign followed by at least one decimal digit. -/
def pyIntDec : List Char → Option Int
  | [] => none
  | '-' :: rest => if rest = [] then none else (decDigitsVal rest 0).map (fun n => -(n : Int))
  | '+' :: rest => if rest = [] then none else (decDigitsVal rest 0).map (fun n => (n : Int))
  | s => (decDigitsVal s 0).map (fun n => (n : Int))

/-- Embedding of Python `int(c, 16)` on a single character. -/
def pyHexDigitVal (c : Char) : Option Nat :=
  if '0' ≤ c ∧ c ≤ '9' then some (c.toNat - '0'.toNat)
  else if 'a' ≤ c ∧ c ≤ 'f' then some (10 + c.toNat - 'a'.toNat)
  else if 'A' ≤ c ∧ c ≤ 'F' then some (10 + c.toNat - 'A'.toNat)
  else none

/-- Python `hex(n)`: lowercase digits, `0x` in front, `-0x` for negatives. -/
def pyHex (n : Int) : List Char :=
  if n < 0 then '-' :: '0' :: 'x' :: Nat.toDigits 16 n.natAbs
  else '0' :: 'x' :: Nat.toDigits 16 n.natAbs

/-- `hex(value)[2:]`, the normalization applied to integer inputs. -/
def pyHexChars (n : Int) : List Char := (pyHex n).drop 2

/-- `"%s.%s.%s" % (major, minor, patch)`. -/
def fmtVersion (major minor patch : Int) : String :=
  toString major ++ "." ++ toString minor ++ "." ++ toString patch

/-- One parse step of the `try` block: a failed parse raises
`ProcessorError("Unexpected value in version: %s" % value)`. -/
def liftParse (value : VValue) (o : Option Int) : Except PyErr Int :=
  match o with
  | some n => .ok n
  | none => .error (.processorError (.unexpectedValue value))

/-- The digit-position decoding of `valueToOSVersionString` applied to the
normalized hex digit sequence `version_str`; `value` is the original input,
used only in the error message. -/
def versionFromSeq (value : VValue) (s : List Char) : Except PyErr String :=
  (liftParse value (if s.length = 1 then pyIntDec (s.take 1)
     else if 1 < s.length then pyIntDec (s.take 2) else some 0)).bind fun major =>
  (liftParse value (if 2 < s.length then (pyHexDigitVal (s.getD 2 ' ')).map Int.ofNat
     else some 0)).bind fun minor =>
  (liftParse value (if 3 < s.length then (pyHexDigitVal (s.getD 3 ' ')).map Int.ofNat
     else some 0)).bind fun patch =>
  .ok (fmtVersion major minor patch)

/-- Embedding of `valueToOSVersionString`: integers are rendered with `hex`
and stripped of two characters; strings must carry the literal `0x` in
front, otherwise the local `version_str` is never assigned and the
function dies with an unhandled `NameError` (`UnboundLocalError`). -/
def valueToOSVersionString : VValue → Except PyErr String
  | .int n => versionFromSeq (.int n) (pyHexChars n)
  | .str s =>
      if "0x".toList <+: s then versionFromSeq (.str s) (s.drop 2)
      else .error .nameError

/-- The normalized hex digit sequence `version_str`, when one is produced. -/
def normSeq : VValue → Option (List Char)
  | .int n => some (pyHexChars n)
  | .str s => if "0x".toList <+: s then some (s.drop 2) else none

/-- The pure success value of the digit decoding: `none` exactly when one of
the digit parses fails. -/
def pureOut (s : List Char) : Option String :=
  (if s.length = 1 then pyIntDec (s.take 1)
     else if 1 < s.length then pyIntDec (s.take 2) else some 0).bind fun major =>
  (if 2 < s.length then (pyHexDigitVal (s.getD 2 ' ')).map Int.ofNat
     else some 0).bind fun minor =>
  (if 3 < s.length then (pyHexDigitVal (s.getD 3 ' ')).map Int.ofNat
     else some 0).bind fun patch =>
  some (fmtVersion major minor patch)

example : valueToOSVersionString (.str "0x1058".toList) = .ok "10.5.8" := by decide
example : valueToOSVersionString (.int 0) = .ok "0.0.0" := by decide
example : valueToOSVersionString (.int 4184) = .ok "10.5.8" := by decide
example : valueToOSVersionString (.str "1058".toList) = .error .nameError := by decide

/-! ### Title-to-version extraction (`getVersion`) -/

/-- Worker for Python `str.replace`: `skip` counts characters still covered by
the previous match (so matching restarts only after a replaced occurrence). -/
def replaceGo (p r : List Char) : List Char → Nat → List Char
  | [], _ => []
  | _ :: rest, skip + 1 => replaceGo p r rest skip
  | c :: rest, 0 =>
      if p ≠ [] ∧ p <+: (c :: rest) then r ++ replaceGo p r rest (p.length - 1)
      else c :: replaceGo p r rest 0

/-- Python `s.replace(p, r)` for a nonempty pattern `p`: left-to-right,
non-overlapping replacement of every occurrence of `p` by `r`. -/
def replaceAll (p r s : List Char) : List Char := replaceGo p r s 0

def TITLE_START : List Char := "Lync ".toList

def TITLE_END : List Char := " Update".toList

/-- `getVersion` on a title: `title.replace("Lync ", "").replace(" Update", "")`. -/
def getVersionChars (title : List Char) : List Char :=
  replaceAll TITLE_END [] (replaceAll TITLE_START [] title)

/-- `getVersion`: extracts the version of the update item from its title. -/
def getVersion (item : Item) : List Char := getVersionChars item.title

example : getVersionChars "Lync 14.0.5 Update".toList = "14.0.5".toList := by decide
example : getVersionChars "Lync Lync 1.0 Update".toList = "1.0".toList := by decide

/-! ### Trigger sanity check -/

/-- `sanityCheckExpectedTriggers`: rejects an item whose `Trigger Condition`
is not exactly `["and", "Lync"]` or whose `Triggers` mapping lacks `"Lync"`. -/
def sanityCheckExpectedTriggers (item : Item) : Except PyErr Unit :=
  if item.triggerCondition ≠ ["and", "Lync"] then
    .error (.processorError (.unexpectedTriggerCondition item.title item.triggerCondition))
  else if (item.triggers.lookup "Lync").isNone then
    .error (.processorError (.missingTrigger item.title))
  else .ok ()

/-! ### `LooseVersion` ordering -/

/-- One component of a `distutils` `LooseVersion`: a digit run (as a number)
or a non-numeric run (as its characters). -/
inductive LooseComp where
  | num (n : Nat)
  | str (s : List Char)
deriving DecidableEq, Repr

def isLowerAlpha (c : Char) : Bool := 'a' ≤ c && c ≤ 'z'

/-- State of the `LooseVersion` tokenizer: the run currently being read. -/
inductive TokState where
  | start
  | num (n : Nat)
  | low (rev : List Char)
  | oth (rev : List Char)

def flushTok : TokState → List LooseComp
  | .start => []
  | .num n => [.num n]
  | .low rev => [.str rev.reverse]
  | .oth rev => [.str rev.reverse]

/-- Tokenizer of `LooseVersion.parse`: digit runs become numbers, letter runs
and runs of other characters become strings, and dots are dropped. -/
def tokGo : List Char → TokState → List LooseComp
  | [], st => flushTok st
  | c :: rest, st =>
      if c = '.' then flushTok st ++ tokGo rest .start
      else if c.isDigit then
        match st with
        | .num n => tokGo rest (.num (n * 10 + digVal c))
        | st => flushTok st ++ tokGo rest (.num (digVal c))
      else if isLowerAlpha c then
        match st with
        | .low rev => tokGo rest (.low (c :: rev))
        | st => flushTok st ++ tokGo rest (.low [c])
      else
        match st with
        | .oth rev => tokGo rest (.oth (c :: rev))
        | st => flushTok st ++ tokGo rest (.oth [c])

/-- `LooseVersion(v).version`: the component list that Python compares. -/
def looseParse (v : String) : List LooseComp := tokGo v.toList .start

example : looseParse "14.0.1" = [.num 14, .num 0, .num 1] := by decide
example : looseParse "1.5.1b2" = [.num 1, .num 5, .num 1, .str "b".toList, .num 2] := by decide

def cmpN (a b : Nat) : Ordering := if a < b then .lt else if b < a then .gt else .eq

def charCmp (a b : Char) : Ordering := if a < b then .lt else if b < a then .gt else .eq

/-- Lexicographic list comparison over an element comparison, as Python
compares lists (a strict initial segment sorts first). -/
def lexCmp (f : α → α → Ordering) : List α → List α → Ordering
  | [], [] => .eq
  | [], _ :: _ => .lt
  | _ :: _, [] => .gt
  | a :: as, b :: bs =>
      match f a b with
      | .eq => lexCmp f as bs
      | o => o

/-- Python 2 `cmp` on `LooseVersion` components: numbers compare numerically,
strings lexicographically, and a number sorts below a string (mixed-type
comparison falls back to the type names, and `int` < `str`). -/
def compCmp : LooseComp → LooseComp → Ordering
  | .num a, .num b => cmpN a b
  | .str a, .str b => lexCmp charCmp a b
  | .num _, .str _ => .lt
  | .str _, .num _ => .gt

/-- `cmp(LooseVersion(a), LooseVersion(b))`. -/
def looseCmp (a b : String) : Ordering := lexCmp compCmp (looseParse a) (looseParse b)

/-- The sort relation `LooseVersion(a) <= LooseVersion(b)`. -/
def looseR (a b : String) : Prop := looseCmp a b ≠ .gt

instance : DecidableRel looseR := fun a b => by unfold looseR; infer_instance

example : looseCmp "14.0.9" "14.0.10" = .lt := by decide
example : looseCmp "14.0.0" "14.0.0" = .eq := by decide

/-! ### Entry selection (`get_lyncInstaller_info`, selection part) -/

/-- Sort key relation of `sorted(metadata, key=itemgetter('Date'))`. -/
def dateR (a b : Item) : Prop := a.date ≤ b.date

instance : DecidableRel dateR := fun a b => Nat.decLe a.date b.date

instance : IsTotal Item dateR := ⟨fun a b => Nat.le_total a.date b.date⟩

instance : IsTrans Item dateR := ⟨fun _ _ _ h h2 => Nat.le_trans h h2⟩

/-- `" " + version_str + " "`. -/
def paddedOf (version_str : String) : List Char := ' ' :: (version_str.toList ++ [' '])

/-- `padded_version_str in item["Title"]`. -/
def titleMatches (version_str : String) (it : Item) : Bool :=
  decide (paddedOf version_str <:+: it.title)

/-- The selection step of `get_lyncInstaller_info`: for `"latest"`, sort by
date and take the last element (`sorted_metadata[-1]` on an empty list is an
unhandled `IndexError`); otherwise filter by the padded version substring and
demand exactly one match. -/
def selectItem (metadata : List Item) (version_str : String) : Except PyErr Item :=
  if version_str = "latest" then
    match (List.insertionSort dateR metadata).getLast? with
    | none => .error .indexError
    | some it => .ok it
  else
    match metadata.filter (titleMatches version_str) with
    | [it] => .ok it
    | _ => .error (.processorError
        (.versionNotFound version_str (metadata.map Item.title)))

/-- `self.env.get("version")` with the falsy-value default to `"latest"`. -/
def effectiveVersion (envVersion : Option String) : String :=
  match envVersion with
  | none => "latest"
  | some v => if v = "" then "latest" else v

/-! ### `getRequiresFromUpdateItem` and `getInstallsItems` -/

def MUNKI_UPDATE_NAME : String := "Lync_Installer"

/-- `item.get("Triggers", {}).get("Lync", {}).get("Versions", [])`. -/
def versionsOf (item : Item) : List String :=
  ((item.triggers.lookup "Lync").map Trigger.versions).getD []

/-- `getRequiresFromUpdateItem`: sanity-check the triggers, sort the trigger
versions with `LooseVersion` as key, and build the requires array unless the
smallest version is the base release `"14.0.0"`. -/
def getRequiresFromUpdateItem (envMunkiUpdateName : Option String) (item : Item) :
    Except PyErr (Option (List String)) :=
  match sanityCheckExpectedTriggers item with
  | .error e => .error e
  | .ok _ =>
      let munki_update_name := envMunkiUpdateName.getD MUNKI_UPDATE_NAME
      let mcp_versions := versionsOf item
      if mcp_versions = [] then .ok none
      else
        match List.insertionSort looseR mcp_versions with
        | [] => .error .indexError
        | m :: _ =>
            if m = "14.0.0" then .ok none
            else .ok (some [munki_update_name ++ "-" ++ m])

/-- One element of the `installs` array. -/
structure InstallsItem where
  cfBundleShortVersionString : List Char
  cfBundleVersion : List Char
  path : String
  type : String
  version_comparison_key : String
deriving DecidableEq, Repr

/-- `getInstallsItems`: if some trigger's `File` is `"Contents/Info.plist"`,
build the bundle installs item from the title version. -/
def getInstallsItems (item : Item) : Except PyErr (Option (List InstallsItem)) :=
  match sanityCheckExpectedTriggers item with
  | .error e => .error e
  | .ok _ =>
      let paths := item.triggers.map fun kt => kt.2.file
      if some "Contents/Info.plist" ∈ paths then
        .ok (some [{ cfBundleShortVersionString := getVersion item
                     cfBundleVersion := getVersion item
                     path := "/Applications/Lync/Contents/Info.plist"
                     type := "bundle"
                     version_comparison_key := "CFBundleShortVersionString" }])
      else .ok none

/-! ### The composed run (`get_lyncInstaller_info` after fetch and parse) -/

/-- The `additional_pkginfo` record. -/
structure Pkginfo where
  description : String
  display_name : List Char
  maximum_os_version : Option String
  minimum_os_version : Option String
  installs : Option (List InstallsItem)
  requires : Option (List String)
  name : String
deriving DecidableEq, Repr

/-- The host-visible output variables of the processor. -/
structure OutVars where
  url : Option String
  pkg_name : Option String
  display_name : Option (List Char)
  additional_pkginfo : Option Pkginfo
deriving DecidableEq, Repr

def emptyOut : OutVars := ⟨none, none, none, none⟩

/-- Python truthiness of an optional list (`None` and `[]` are falsy). -/
def truthyList (o : Option (List α)) : Bool :=
  match o with
  | none => false
  | some l => !l.isEmpty

/-- The body of `get_lyncInstaller_info` after the feed has been fetched and
parsed: selection, the early `url` / `pkg_name` env writes, OS bound
decoding, installs / requires derivation, and the final `additional_pkginfo`
and `display_name` writes. Returns the host-visible output variables as
mutated so far, together with the error that aborted the run, if any. -/
def get_lyncInstaller_info (envVersion envMunkiUpdateName : Option String)
    (metadata : List Item) : OutVars × Option PyErr :=
  let version_str := effectiveVersion envVersion
  match selectItem metadata version_str with
  | .error e => (emptyOut, some e)
  | .ok item =>
      let s1 : OutVars :=
        { emptyOut with url := some item.location, pkg_name := some item.payload }
      match valueToOSVersionString item.maxOS with
      | .error e => (s1, some e)
      | .ok max_os =>
          match valueToOSVersionString item.minOS with
          | .error e => (s1, some e)
          | .ok min_os =>
              match getInstallsItems item with
              | .error e => (s1, some e)
              | .ok installs_items =>
                  match getRequiresFromUpdateItem envMunkiUpdateName item with
                  | .error e => (s1, some e)
                  | .ok requires =>
                      let pkginfo : Pkginfo :=
                        { description := "<html>" ++ item.shortDescription ++ "</html>"
                          display_name := item.title
                          maximum_os_version := if max_os ≠ "0.0.0" then some max_os else none
                          minimum_os_version := if min_os ≠ "0.0.0" then some min_os else none
                          installs := if truthyList installs_items then installs_items else none
                          requires := if truthyList requires then requires else none
                          name := envMunkiUpdateName.getD MUNKI_UPDATE_NAME }
                      ({ s1 with additional_pkginfo := some pkginfo,
                                 display_name := some pkginfo.display_name }, none)

/-! ### Definitions modelled from the spec's words (for refinement claims) -/

/-- Modelled from the spec (§4.1): "major = integer value of `s[0]` if length
1, else integer value of `s[0:2]` (decimal parse, not hex) if length ≥ 2". -/
def specC1Major (s : List Char) : Option Int :=
  if s.length = 1 then (s.get? 0).bind fun c => pyIntDec [c]
  else if 2 ≤ s.length then pyIntDec (s.take 2)
  else some 0

/-- Modelled from the spec (§4.1): "minor = hex-digit value of `s[2]` if
length > 2, else 0". -/
def specC1Minor (s : List Char) : Option Int :=
  if 2 < s.length then (s.get? 2).bind fun c => (pyHexDigitVal c).map Int.ofNat
  else some 0

/-- Modelled from the spec (§4.1): "patch = hex-digit value of `s[3]` if
length > 3, else 0". -/
def specC1Patch (s : List Char) : Option Int :=
  if 3 < s.length then (s.get? 3).bind fun c => (pyHexDigitVal c).map Int.ofNat
  else some 0

/-- Modelled from the spec (§4.1): the whole decoding of a normalized hex
digit sequence, returning `"{major}.{minor}.{patch}"` and failing with the
decode `ProcessorError` when a digit parse fails. -/
def specC1FromSeq (value : VValue) (s : List Char) : Except PyErr String :=
  match specC1Major s, specC1Minor s, specC1Patch s with
  | some ma, some mi, some pa => .ok (fmtVersion ma mi pa)
  | _, _, _ => .error (.processorError (.unexpectedValue value))

/-- Modelled from the spec (§4.3 / C8): "version string = title with a fixed
leading literal (`"Lync "`) and trailing literal (`" Update"`) removed",
each removed at most once, the remainder unchanged. -/
def specStripTitle (title : List Char) : List Char :=
  let afterStart := if TITLE_START <+: title then title.drop TITLE_START.length else title
  if TITLE_END <:+ afterStart then afterStart.take (afterStart.length - TITLE_END.length)
  else afterStart

example : specStripTitle "Lync 14.0.5 Update".toList = "14.0.5".toList := by decide

/-! ### Concrete feed entries used by witnesses and counterexamples -/

def trigOK : Trigger := { file := some "Contents/Info.plist", versions := ["14.0.1"] }

def itemBase : Item :=
  { title := "Lync 14.0.1 Update".toList
    date := 1
    location := "http://example.com/a.dmg"
    payload := "a.dmg"
    shortDescription := "desc"
    minOS := .int 0
    maxOS := .int 0
    triggerCondition := ["and", "Lync"]
    triggers := [("Lync", trigOK)] }

def itemLate : Item :=
  { itemBase with title := "Lync 14.0.2 Update".toList, date := 2
                  location := "http://example.com/b.dmg" }

def itemTieA : Item := { itemBase with date := 5 }

def itemTieB : Item :=
  { itemBase with title := "Lync 14.0.2 Update".toList, date := 5
                  location := "http://example.com/b.dmg" }

def itemBadMax : Item := { itemBase with maxOS := .str "0xZZ".toList }

def c9OutExposed : OutVars :=
  { url := some "http://example.com/a.dmg", pkg_name := some "a.dmg"
    display_name := none, additional_pkginfo := none }

example : selectItem [itemTieA, itemTieB] "latest" = .ok itemTieB := by decide
example : selectItem [itemTieB, itemTieA] "latest" = .ok itemTieA := by decide
example : getRequiresFromUpdateItem none itemBase = .ok (some ["Lync_Installer-14.0.1"]) := by
  decide
example :
    get_lyncInstaller_info none none [itemBadMax] =
      (c9OutExposed, some (.processorError (.unexpectedValue (.str "0xZZ".toList)))) := by
  decide

/-! ### Lemmas about the version codec -/

theorem versionFromSeq_eq_pureOut (value : VValue) (s : List Char) :
    versionFromSeq value s =
      match pureOut s with
      | some o => .ok o
      | none => .error (.processorError (.unexpectedValue value)) := by
  unfold versionFromSeq pureOut
  cases (if s.length = 1 then pyIntDec (s.take 1)
      else if 1 < s.length then pyIntDec (s.take 2) else some 0) <;>
    cases (if 2 < s.length then (pyHexDigitVal (s.getD 2 ' ')).map Int.ofNat
        else some 0) <;>
      cases (if 3 < s.length then (pyHexDigitVal (s.getD 3 ' ')).map Int.ofNat
          else some 0) <;>
        simp [liftParse, Except.bind, Option.bind]

theorem versionFromSeq_eq_spec (value : VValue) (s : List Char) :
    versionFromSeq value s = specC1FromSeq value s := by
  have hmaj : (if s.length = 1 then pyIntDec (s.take 1)
      else if 1 < s.length then pyIntDec (s.take 2) else some 0) = specC1Major s := by
    unfold specC1Major
    by_cases h1 : s.length = 1
    · obtain ⟨c, rfl⟩ := List.length_eq_one.mp h1
      simp
    · by_cases h2 : 1 < s.length
      · have h2' : 2 ≤ s.length := h2
        simp [h1, h2, h2']
      · have h2' : ¬ 2 ≤ s.length := h2
        simp [h1, h2, h2']
  have hmin : (if 2 < s.length then (pyHexDigitVal (s.getD 2 ' ')).map Int.ofNat
      else some 0) = specC1Minor s := by
    unfold specC1Minor
    by_cases h2 : 2 < s.length
    · have hc : s.get? 2 = some (s.get ⟨2, h2⟩) := by
        rw [List.get?_eq_getElem?]
        simp [List.getElem?_eq_getElem h2]
      simp [h2, hc, List.getD_eq_getElem?_getD, List.getElem?_eq_getElem h2]
    · simp [h2]
  have hpat : (if 3 < s.length then (pyHexDigitVal (s.getD 3 ' ')).map Int.ofNat
      else some 0) = specC1Patch s := by
    unfold specC1Patch
    by_cases h3 : 3 < s.length
    · have hc : s.get? 3 = some (s.get ⟨3, h3⟩) := by
        rw [List.get?_eq_getElem?]
        simp [List.getElem?_eq_getElem h3]
      simp [h3, hc, List.getD_eq_getElem?_getD, List.getElem?_eq_getElem h3]
    · simp [h3]
  unfold versionFromSeq specC1FromSeq
  rw [hmaj, hmin, hpat]
  cases specC1Major s <;> cases specC1Minor s <;> cases specC1Patch s <;>
    simp [liftParse, Except.bind]

theorem valueToOS_of_normSeq (v : VValue) (s : List Char) (h : normSeq v = some s) :
    valueToOSVersionString v = versionFromSeq v s := by
  cases v with
  | int n =>
      simp only [normSeq, Option.some.injEq] at h
      subst h
      rfl
  | str t =>
      by_cases hp : "0x".toList <+: t
      · simp only [normSeq] at h
        rw [if_pos hp] at h
        obtain rfl : t.drop 2 = s := by simpa using h
        simp only [valueToOSVersionString]
        rw [if_pos hp]
      · simp only [normSeq] at h
        rw [if_neg hp] at h
        cases h

theorem pureOut_take4 {s1 s2 : List Char} (h : s1.take 4 = s2.take 4) :
    pureOut s1 = pureOut s2 := by
  have hlen : min 4 s1.length = min 4 s2.length := by
    have hc := congrArg List.length h
    simpa [List.length_take] using hc
  have htake2 : s1.take 2 = s2.take 2 := by
    have h2 : (s1.take 4).take 2 = (s2.take 4).take 2 := by rw [h]
    simpa [List.take_take] using h2
  have htake1 : s1.take 1 = s2.take 1 := by
    have h2 : (s1.take 4).take 1 = (s2.take 4).take 1 := by rw [h]
    simpa [List.take_take] using h2
  have hget2 : s1.getD 2 ' ' = s2.getD 2 ' ' := by
    have h2 : (s1.take 4)[2]? = (s2.take 4)[2]? := by rw [h]
    rw [List.getElem?_take_of_lt (by norm_num), List.getElem?_take_of_lt (by norm_num)] at h2
    simp [List.getD_eq_getElem?_getD, h2]
  have hget3 : s1.getD 3 ' ' = s2.getD 3 ' ' := by
    have h2 : (s1.take 4)[3]? = (s2.take 4)[3]? := by rw [h]
    rw [List.getElem?_take_of_lt (by norm_num), List.getElem?_take_of_lt (by norm_num)] at h2
    simp [List.getD_eq_getElem?_getD, h2]
  have e1 : (s1.length = 1) ↔ (s2.length = 1) := by omega
  have e2 : (1 < s1.length) ↔ (1 < s2.length) := by omega
  have e3 : (2 < s1.length) ↔ (2 < s2.length) := by omega
  have e4 : (3 < s1.length) ↔ (3 < s2.length) := by omega
  unfold pureOut
  rw [if_congr e1 (by rw [htake1]) (if_congr e2 (by rw [htake2]) rfl),
      if_congr e3 (by rw [hget2]) rfl, if_congr e4 (by rw [hget3]) rfl]

theorem versionFromSeq_take4 (value : VValue) (s : List Char) :
    versionFromSeq value s = versionFromSeq value (s.take 4) := by
  rw [versionFromSeq_eq_pureOut, versionFromSeq_eq_pureOut,
      @pureOut_take4 s (s.take 4) (by simp [List.take_take])]

/-! ### Claims C1, C10, C7 about the version codec -/

/-- C1: for every input that is an integer or a string beginning with `0x`,
`valueToOSVersionString` normalizes it to a hex digit sequence `s` and
returns `"{major}.{minor}.{patch}"` with major the decimal value of `s[0]`
(length 1) or `s[0:2]` (length ≥ 2), minor the hex value of `s[2]` (length
> 2, else 0), patch the hex value of `s[3]` (length > 3, else 0), failing
with the decode `ProcessorError` exactly when one of those digit parses
fails; in particular `decode("0x1058") = "10.5.8"` and both `decode(0)` and
decoding the sequence `"0000"` give `"0.0.0"`. -/
theorem claim_C1_decode :
    (∀ (v : VValue) (s : List Char), normSeq v = some s →
        valueToOSVersionString v = specC1FromSeq v s) ∧
    valueToOSVersionString (.str "0x1058".toList) = .ok "10.5.8" ∧
    valueToOSVersionString (.int 0) = .ok "0.0.0" ∧
    valueToOSVersionString (.str "0x0000".toList) = .ok "0.0.0" := by
  refine ⟨?_, by decide, by decide, by decide⟩
  intro v s h
  rw [valueToOS_of_normSeq v s h, versionFromSeq_eq_spec]

theorem claim_C1_decode_witness :
    normSeq (.str "0x1058".toList) = some "1058".toList ∧
    valueToOSVersionString (.str "0x1058".toList) =
      specC1FromSeq (.str "0x1058".toList) "1058".toList :=
  ⟨by decide, claim_C1_decode.1 _ _ (by decide)⟩

/-- C10: the decode result depends only on the first four characters of the
normalized hex digit sequence — two inputs whose normalized sequences agree
on positions 0 through 3 succeed with the same version string, a sequence
decodes exactly as its four-character front part, and the empty sequence
decodes to `"0.0.0"` without error. -/
theorem claim_C10_take4 :
    (∀ (v1 v2 : VValue) (s1 s2 : List Char) (out : String),
        normSeq v1 = some s1 → normSeq v2 = some s2 → s1.take 4 = s2.take 4 →
        (valueToOSVersionString v1 = .ok out ↔ valueToOSVersionString v2 = .ok out)) ∧
    (∀ (value : VValue) (s : List Char),
        versionFromSeq value s = versionFromSeq value (s.take 4)) ∧
    (∀ value : VValue, versionFromSeq value [] = .ok "0.0.0") := by
  refine ⟨?_, versionFromSeq_take4, ?_⟩
  · intro v1 v2 s1 s2 out h1 h2 ht
    rw [valueToOS_of_normSeq v1 s1 h1, valueToOS_of_normSeq v2 s2 h2,
        versionFromSeq_eq_pureOut, versionFromSeq_eq_pureOut, pureOut_take4 ht]
    cases pureOut s2 <;> simp
  · intro value
    rw [versionFromSeq_eq_pureOut]
    have h : pureOut [] = some "0.0.0" := by decide
    rw [h]

theorem claim_C10_take4_witness :
    (valueToOSVersionString (.str "0x10589".toList) = .ok "10.5.8" ↔
      valueToOSVersionString (.str "0x1058Z".toList) = .ok "10.5.8") :=
  claim_C10_take4.1 (.str "0x10589".toList) (.str "0x1058Z".toList)
    "10589".toList "1058Z".toList "10.5.8" (by decide) (by decide) (by decide)

/-- C7 counterexample: a string without the `0x` in front makes
`valueToOSVersionString` die with an unhandled `NameError` (the local
`version_str` is never assigned), which is not the decode
`ProcessorError` the claim names. -/
theorem claim_C7_cex :
    valueToOSVersionString (.str "1058".toList) = .error PyErr.nameError ∧
    isProcessorError PyErr.nameError = false := by decide

/-- C7 (amended): for every string input that does not begin with `0x`,
`valueToOSVersionString` fails — but with an unhandled `NameError`
(`UnboundLocalError`), not with the `DecodeError` `ProcessorError`. -/
theorem claim_C7_amended (s : List Char) (h : ¬ ("0x".toList <+: s)) :
    valueToOSVersionString (.str s) = .error .nameError := by
  simp only [valueToOSVersionString]
  rw [if_neg h]

theorem claim_C7_amended_witness :
    valueToOSVersionString (.str "Z058".toList) = .error .nameError :=
  claim_C7_amended "Z058".toList (by decide)

/-! ### Lemmas about "latest" selection -/

theorem sorted_dateR_le_getLast :
    ∀ (l : List Item), l.Sorted dateR → ∀ (hne : l ≠ []) (x : Item), x ∈ l →
      x.date ≤ (l.getLast hne).date
  | [], _, hne, _, _ => absurd rfl hne
  | [a], _, _, x, hx => by
      have hxa : x = a := by simpa using hx
      subst hxa
      exact Nat.le_refl _
  | a :: b :: t, hs, _, x, hx => by
      have hs1 := (List.sorted_cons.mp hs).1
      have hs2 := (List.sorted_cons.mp hs).2
      rw [List.getLast_cons (by simp : (b : Item) :: t ≠ [])]
      rcases List.mem_cons.mp hx with rfl | hx2
      · exact hs1 _ (List.getLast_mem (by simp))
      · exact sorted_dateR_le_getLast (b :: t) hs2 (by simp) x hx2

theorem selectLatest_spec (metadata : List Item) (hne : metadata ≠ []) :
    ∃ it, selectItem metadata "latest" = .ok it ∧ it ∈ metadata ∧
      ∀ x ∈ metadata, x.date ≤ it.date := by
  have hperm := List.perm_insertionSort dateR metadata
  have hsne : List.insertionSort dateR metadata ≠ [] := by
    intro h0
    have hlen := hperm.length_eq
    rw [h0] at hlen
    simp at hlen
    exact hne (List.length_eq_zero.mp hlen.symm)
  have hsorted : (List.insertionSort dateR metadata).Sorted dateR :=
    List.sorted_insertionSort dateR metadata
  refine ⟨(List.insertionSort dateR metadata).getLast hsne, ?_, ?_, ?_⟩
  · unfold selectItem
    rw [if_pos rfl, List.getLast?_eq_getLast _ hsne]
  · exact hperm.subset (List.getLast_mem hsne)
  · intro x hx
    exact sorted_dateR_le_getLast _ hsorted hsne x (hperm.mem_iff.mpr hx)

theorem date_inj_of_nodup :
    ∀ (l : List Item), (l.map Item.date).Nodup →
      ∀ a, a ∈ l → ∀ b, b ∈ l → a.date = b.date → a = b
  | [], _, a, ha, _, _, _ => absurd ha (by simp)
  | x :: t, hnd, a, ha, b, hb, hab => by
      rw [List.map_cons, List.nodup_cons] at hnd
      rcases List.mem_cons.mp ha with rfl | ha2
      · rcases List.mem_cons.mp hb with rfl | hb2
        · rfl
        · exfalso
          apply hnd.1
          rw [hab]
          exact List.mem_map_of_mem Item.date hb2
      · rcases List.mem_cons.mp hb with rfl | hb2
        · exfalso
          apply hnd.1
          rw [← hab]
          exact List.mem_map_of_mem Item.date ha2
        · exact date_inj_of_nodup t hnd.2 a ha2 b hb2 hab

/-! ### Claims C2, C3, C6 about entry selection -/

/-- C2 counterexample: two entries sharing the same (maximal) date —
reversing the input order changes which entry "latest" selection returns,
so the result is not invariant under permutation of the input list. -/
theorem claim_C2_cex :
    selectItem [itemTieA, itemTieB] "latest" = .ok itemTieB ∧
    selectItem [itemTieB, itemTieA] "latest" = .ok itemTieA ∧
    itemTieA ≠ itemTieB := by decide

/-- C2 (amended): selecting with "latest" (the default when the selector is
absent) from a non-empty feed returns an entry whose date is maximal under
the total order on dates; when the dates are pairwise distinct the result
is moreover the same for every permutation of the input list (with
duplicate maximal dates, different input orders can return different
entries). -/
theorem claim_C2_amended (metadata : List Item) (hne : metadata ≠ []) :
    effectiveVersion none = "latest" ∧
    ∃ it, selectItem metadata "latest" = .ok it ∧ it ∈ metadata ∧
      (∀ x ∈ metadata, x.date ≤ it.date) ∧
      ((metadata.map Item.date).Nodup →
        ∀ metadata2, metadata2.Perm metadata → selectItem metadata2 "latest" = .ok it) := by
  refine ⟨rfl, ?_⟩
  obtain ⟨it, hsel, hmem, hmax⟩ := selectLatest_spec metadata hne
  refine ⟨it, hsel, hmem, hmax, ?_⟩
  intro hnd md2 hperm
  have hne2 : md2 ≠ [] := by
    intro h0
    subst h0
    have hlen := hperm.length_eq
    simp at hlen
    exact hne (List.length_eq_zero.mp hlen.symm)
  obtain ⟨it2, hsel2, hmem2, hmax2⟩ := selectLatest_spec md2 hne2
  have hm2 : it2 ∈ metadata := hperm.subset hmem2
  have hm1 : it ∈ md2 := hperm.mem_iff.mpr hmem
  have heq : it2 = it :=
    date_inj_of_nodup metadata hnd it2 hm2 it hmem
      (Nat.le_antisymm (hmax it2 hm2) (hmax2 it hm1))
  rw [hsel2, heq]

theorem claim_C2_amended_witness :
    effectiveVersion none = "latest" ∧
    ∃ it, selectItem [itemBase, itemLate] "latest" = .ok it ∧ it ∈ [itemBase, itemLate] ∧
      (∀ x ∈ [itemBase, itemLate], x.date ≤ it.date) ∧
      (([itemBase, itemLate].map Item.date).Nodup →
        ∀ metadata2, metadata2.Perm [itemBase, itemLate] →
          selectItem metadata2 "latest" = .ok it) :=
  claim_C2_amended [itemBase, itemLate] (by decide)

/-- C3: for a non-"latest" selector `v`, selection returns the unique entry
whose title contains the padded substring `" " + v + " "` — when the filter
retains exactly one entry, that entry is returned, and a returned entry is
the unique padded-substring match; when the number of entries whose title
contains it is not exactly one, selection fails with the `ProcessorError`
whose message lists the titles of all entries of the feed. -/
theorem claim_C3_explicit (metadata : List Item) (version_str : String)
    (hv : version_str ≠ "latest") :
    (∀ it, metadata.filter (titleMatches version_str) = [it] →
        selectItem metadata version_str = .ok it) ∧
    (∀ it, selectItem metadata version_str = .ok it →
        it ∈ metadata ∧ paddedOf version_str <:+: it.title ∧
        ∀ it2, it2 ∈ metadata → paddedOf version_str <:+: it2.title → it2 = it) ∧
    ((metadata.filter (titleMatches version_str)).length ≠ 1 →
        selectItem metadata version_str =
          .error (.processorError
            (.versionNotFound version_str (metadata.map Item.title)))) := by
  refine ⟨?_, ?_, ?_⟩
  · intro it hfil
    simp only [selectItem, if_neg hv]
    rw [hfil]
  · intro it hit
    simp only [selectItem, if_neg hv] at hit
    rcases hf : metadata.filter (titleMatches version_str) with _ | ⟨x, _ | ⟨y, r⟩⟩
    · rw [hf] at hit
      cases hit
    · rw [hf] at hit
      have hxit : x = it := by simpa using hit
      rw [hxit] at hf
      have hx : it ∈ metadata ∧ titleMatches version_str it = true := by
        have hmem : it ∈ metadata.filter (titleMatches version_str) := by
          rw [hf]
          simp
        simpa using List.mem_filter.mp hmem
      refine ⟨hx.1, of_decide_eq_true hx.2, ?_⟩
      intro it2 h2 hinf
      have hmem2 : it2 ∈ metadata.filter (titleMatches version_str) :=
        List.mem_filter.mpr ⟨h2, decide_eq_true hinf⟩
      rw [hf] at hmem2
      simpa using hmem2
    · rw [hf] at hit
      cases hit
  · intro hlen
    simp only [selectItem, if_neg hv]
    rcases hf : metadata.filter (titleMatches version_str) with _ | ⟨x, _ | ⟨y, r⟩⟩
    · rfl
    · rw [hf] at hlen
      simp at hlen
    · rfl

theorem claim_C3_explicit_witness :
    ("14.0.1" : String) ≠ "latest" ∧
    ((∀ it, [itemBase, itemLate].filter (titleMatches "14.0.1") = [it] →
        selectItem [itemBase, itemLate] "14.0.1" = .ok it) ∧
     (∀ it, selectItem [itemBase, itemLate] "14.0.1" = .ok it →
        it ∈ [itemBase, itemLate] ∧ paddedOf "14.0.1" <:+: it.title ∧
        ∀ it2, it2 ∈ [itemBase, itemLate] → paddedOf "14.0.1" <:+: it2.title → it2 = it) ∧
     (([itemBase, itemLate].filter (titleMatches "14.0.1")).length ≠ 1 →
        selectItem [itemBase, itemLate] "14.0.1" =
          .error (.processorError
            (.versionNotFound "14.0.1" ([itemBase, itemLate].map Item.title))))) :=
  ⟨by decide, claim_C3_explicit [itemBase, itemLate] "14.0.1" (by decide)⟩

example : [itemBase, itemLate].filter (titleMatches "14.0.1") = [itemBase] := by decide

example : selectItem [itemBase, itemLate] "14.0.1" = .ok itemBase := by decide

example : selectItem [itemBase, itemLate] "9.9.9" =
    .error (.processorError
      (.versionNotFound "9.9.9" ([itemBase, itemLate].map Item.title))) := by decide

/-- C6 counterexample: with an empty feed and selector "latest", the failure
is an unhandled `IndexError` from `sorted_metadata[-1]`, which is not a
deliberate, descriptive `ProcessorError` (no dedicated empty-feed error
exists in the code). -/
theorem claim_C6_cex :
    selectItem [] "latest" = .error PyErr.indexError ∧
    isProcessorError PyErr.indexError = false := by decide

/-- C6 (amended): when the feed parses to an empty entry list and the
selector is "latest", selection fails — with an unhandled generic
`IndexError` from indexing the empty sorted list, not with a dedicated
`EmptyFeedError`. -/
theorem claim_C6_amended :
    selectItem [] "latest" = .error PyErr.indexError := by decide

/-! ### Lemmas about `str.replace` and claim C8 -/

theorem replaceGo_skip (p r : List Char) :
    ∀ (s : List Char) (k : Nat), replaceGo p r s k = replaceGo p r (s.drop k) 0
  | [], k => by simp [replaceGo]
  | _ :: _, 0 => rfl
  | c :: rest, k + 1 => by
      rw [List.drop_succ_cons]
      exact replaceGo_skip p r rest k

theorem replaceAll_front (p r t : List Char) (hp : p ≠ []) :
    replaceAll p r (p ++ t) = r ++ replaceAll p r t := by
  rcases p with _ | ⟨c, p2⟩
  · exact absurd rfl hp
  · unfold replaceAll
    rw [List.cons_append]
    simp only [replaceGo]
    rw [if_pos ⟨List.cons_ne_nil c p2,
        by rw [← List.cons_append]; exact List.prefix_append _ _⟩]
    rw [replaceGo_skip (c :: p2) r (p2 ++ t) ((c :: p2).length - 1)]
    congr 1
    rw [show ((c :: p2).length - 1) = p2.length from by simp, List.drop_left]

theorem replaceAll_of_no_infix (p r : List Char) (hp : p ≠ []) :
    ∀ s : List Char, ¬ (p <:+: s) → replaceAll p r s = s
  | [], _ => rfl
  | c :: rest, h => by
      unfold replaceAll
      simp only [replaceGo]
      rw [if_neg (fun hc => h hc.2.isInfix)]
      have ih := replaceAll_of_no_infix p r hp rest (fun hi => h (List.infix_cons hi))
      unfold replaceAll at ih
      rw [ih]

theorem replaceAll_append_of_no_start (p r : List Char) (hp : p ≠ []) :
    ∀ (a b : List Char), (∀ i, i < a.length → ¬ (p <+: (a.drop i ++ b))) →
      replaceAll p r (a ++ b) = a ++ replaceAll p r b
  | [], b, _ => by simp
  | c :: a2, b, h => by
      unfold replaceAll
      rw [List.cons_append]
      simp only [replaceGo]
      have h0 : ¬ (p <+: (c :: (a2 ++ b))) := by
        have hh := h 0 (by simp)
        simpa using hh
      rw [if_neg (fun hc => h0 hc.2)]
      have ih := replaceAll_append_of_no_start p r hp a2 b (fun i hi => by
        have hh := h (i + 1) (by simpa using Nat.succ_lt_succ hi)
        simpa using hh)
      unfold replaceAll at ih
      rw [ih]
      simp

/-- C8 counterexample: `str.replace` substitutes every occurrence, not only a
leading and a trailing literal — on the title `"Lync Lync 1.0 Update"` the
code extracts `"1.0"` while stripping one literal from each end (the claim's
reading, `specStripTitle`) leaves `"Lync 1.0"`. -/
theorem claim_C8_cex :
    getVersionChars "Lync Lync 1.0 Update".toList = "1.0".toList ∧
    specStripTitle "Lync Lync 1.0 Update".toList = "Lync 1.0".toList ∧
    ("1.0".toList : List Char) ≠ "Lync 1.0".toList := by decide

/-- C8 (amended): the code removes every occurrence of `"Lync "` and of
`" Update"` from the title (global `str.replace`), not just a leading and a
trailing literal; for titles of the template form `"Lync " ++ v ++ " Update"`
whose version part consists of digits and dots, the extraction does return
exactly `v`. -/
theorem claim_C8_amended (v : List Char) (hv : ∀ c ∈ v, c.isDigit = true ∨ c = '.') :
    getVersionChars (TITLE_START ++ v ++ TITLE_END) = v := by
  have hp1 : TITLE_START ≠ [] := by decide
  have hp2 : TITLE_END ≠ [] := by decide
  have hnoL : ¬ (TITLE_START <:+: (v ++ TITLE_END)) := by
    intro hinf
    have hLmem : ('L' : Char) ∈ v ++ TITLE_END := hinf.subset (by decide)
    rcases List.mem_append.mp hLmem with hL | hL
    · rcases hv 'L' hL with hd | hd
      · exact absurd hd (by decide)
      · exact absurd hd (by decide)
    · exact absurd hL (by decide)
  have hnoU : ∀ i, i < v.length → ¬ (TITLE_END <+: (v.drop i ++ TITLE_END)) := by
    intro i hi hpre
    rcases hd : v.drop i with _ | ⟨d, rest⟩
    · have hl := List.length_drop i v
      rw [hd] at hl
      simp at hl
      omega
    · have hdv : d ∈ v := List.drop_subset i v (by rw [hd]; simp)
      rw [hd, List.cons_append] at hpre
      have hTE : TITLE_END = ' ' :: "Update".toList := by decide
      rw [hTE] at hpre
      have hsp : (' ' : Char) = d := (List.cons_prefix_cons.mp hpre).1
      rcases hv d hdv with hdig | hdot
      · rw [← hsp] at hdig
        exact absurd hdig (by decide)
      · rw [← hsp] at hdot
        exact absurd hdot (by decide)
  unfold getVersionChars
  rw [List.append_assoc, replaceAll_front TITLE_START [] (v ++ TITLE_END) hp1,
      List.nil_append,
      replaceAll_of_no_infix TITLE_START [] hp1 (v ++ TITLE_END) hnoL,
      replaceAll_append_of_no_start TITLE_END [] hp2 v TITLE_END hnoU]
  have hfin : replaceAll TITLE_END [] TITLE_END = [] := by decide
  rw [hfin, List.append_nil]

theorem claim_C8_amended_witness :
    getVersionChars (TITLE_START ++ "14.0.5".toList ++ TITLE_END) = "14.0.5".toList :=
  claim_C8_amended "14.0.5".toList (by decide)

/-! ### Order properties of the LooseVersion comparison -/

theorem cmpN_self (a : Nat) : cmpN a a = .eq := by simp [cmpN]

theorem cmpN_eq {a b : Nat} (h : cmpN a b = .eq) : a = b := by
  unfold cmpN at h
  split_ifs at h with h1 h2
  omega

theorem cmpN_swap (a b : Nat) : (cmpN a b).swap = cmpN b a := by
  unfold cmpN
  split_ifs <;> first | omega | rfl

theorem cmpN_lt_iff {a b : Nat} : cmpN a b = .lt ↔ a < b := by
  unfold cmpN
  split_ifs with h1 h2
  · simp [h1]
  · exact iff_of_false (by simp) (by omega)
  · exact iff_of_false (by simp) h1

theorem charCmp_self (a : Char) : charCmp a a = .eq := by simp [charCmp]

theorem charCmp_eq {a b : Char} (h : charCmp a b = .eq) : a = b := by
  unfold charCmp at h
  split_ifs at h with h1 h2
  exact le_antisymm (not_lt.mp h2) (not_lt.mp h1)

theorem charCmp_swap (a b : Char) : (charCmp a b).swap = charCmp b a := by
  unfold charCmp
  rcases lt_trichotomy a b with h | h | h
  · rw [if_pos h, if_neg (asymm h), if_pos h]
    rfl
  · subst h
    simp [lt_irrefl, Ordering.swap]
  · rw [if_neg (asymm h), if_pos h, if_pos h]
    rfl

theorem charCmp_lt_iff {a b : Char} : charCmp a b = .lt ↔ a < b := by
  unfold charCmp
  split_ifs with h1 h2
  · simp [h1]
  · exact iff_of_false (by simp) (asymm h2)
  · exact iff_of_false (by simp) h1

theorem charCmp_lt_trans {a b c : Char} (h1 : charCmp a b = .lt)
    (h2 : charCmp b c = .lt) : charCmp a c = .lt :=
  charCmp_lt_iff.mpr (lt_trans (charCmp_lt_iff.mp h1) (charCmp_lt_iff.mp h2))

theorem lexCmp_self (f : α → α → Ordering) (hf : ∀ a, f a a = .eq) :
    ∀ l, lexCmp f l l = .eq
  | [] => rfl
  | a :: as => by
      simp only [lexCmp, hf a]
      exact lexCmp_self f hf as

theorem lexCmp_eq (f : α → α → Ordering) (hf : ∀ {a b}, f a b = .eq → a = b) :
    ∀ {l1 l2 : List α}, lexCmp f l1 l2 = .eq → l1 = l2
  | [], [], _ => rfl
  | [], _ :: _, h => Ordering.noConfusion h
  | _ :: _, [], h => Ordering.noConfusion h
  | a :: as, b :: bs, h => by
      rcases hfa : f a b with _ | _ | _
      · simp only [lexCmp, hfa] at h
        exact Ordering.noConfusion h
      · have hab := hf hfa
        subst hab
        simp only [lexCmp, hfa] at h
        rw [lexCmp_eq f hf h]
      · simp only [lexCmp, hfa] at h
        exact Ordering.noConfusion h

theorem lexCmp_swap (f : α → α → Ordering) (hf : ∀ a b, (f a b).swap = f b a) :
    ∀ l1 l2 : List α, (lexCmp f l1 l2).swap = lexCmp f l2 l1
  | [], [] => rfl
  | [], _ :: _ => rfl
  | _ :: _, [] => rfl
  | a :: as, b :: bs => by
      rcases hfa : f a b with _ | _ | _
      · have hba : f b a = .gt := by rw [← hf a b, hfa]; rfl
        simp only [lexCmp, hfa, hba]
        rfl
      · have hba : f b a = .eq := by rw [← hf a b, hfa]; rfl
        simp only [lexCmp, hfa, hba]
        exact lexCmp_swap f hf as bs
      · have hba : f b a = .lt := by rw [← hf a b, hfa]; rfl
        simp only [lexCmp, hfa, hba]
        rfl

theorem lexCmp_lt_trans (f : α → α → Ordering)
    (hfeq : ∀ {a b}, f a b = .eq → a = b)
    (hflt : ∀ {a b c}, f a b = .lt → f b c = .lt → f a c = .lt) :
    ∀ {l1 l2 l3 : List α}, lexCmp f l1 l2 = .lt → lexCmp f l2 l3 = .lt →
      lexCmp f l1 l3 = .lt
  | [], _, _ :: _, _, _ => rfl
  | [], [], [], h1, _ => Ordering.noConfusion h1
  | [], _ :: _, [], _, h2 => Ordering.noConfusion h2
  | _ :: _, [], _, h1, _ => Ordering.noConfusion h1
  | _ :: _, _ :: _, [], _, h2 => Ordering.noConfusion h2
  | a :: as, b :: bs, c :: cs, h1, h2 => by
      rcases hab : f a b with _ | _ | _
      · rcases hbc : f b c with _ | _ | _
        · have hac : f a c = .lt := hflt hab hbc
          simp only [lexCmp, hac]
        · have hcb := hfeq hbc
          subst hcb
          simp only [lexCmp, hab]
        · simp only [lexCmp, hbc] at h2
          exact Ordering.noConfusion h2
      · have hab2 := hfeq hab
        subst hab2
        rcases hac : f a c with _ | _ | _
        · simp only [lexCmp, hac]
        · have hca := hfeq hac
          subst hca
          simp only [lexCmp, hab] at h1
          simp only [lexCmp, hac] at h2
          simp only [lexCmp, hac]
          exact lexCmp_lt_trans f hfeq hflt h1 h2
        · simp only [lexCmp, hac] at h2
          exact Ordering.noConfusion h2
      · simp only [lexCmp, hab] at h1
        exact Ordering.noConfusion h1

theorem compCmp_self (x : LooseComp) : compCmp x x = .eq := by
  cases x with
  | num n => exact cmpN_self n
  | str s => exact lexCmp_self charCmp charCmp_self s

theorem compCmp_eq : ∀ {x y : LooseComp}, compCmp x y = .eq → x = y
  | .num a, .num b, h => by rw [cmpN_eq h]
  | .str a, .str b, h => by rw [lexCmp_eq charCmp (fun {a b} => charCmp_eq) h]
  | .num _, .str _, h => Ordering.noConfusion h
  | .str _, .num _, h => Ordering.noConfusion h

theorem compCmp_swap (x y : LooseComp) : (compCmp x y).swap = compCmp y x := by
  cases x with
  | num a =>
      cases y with
      | num b => exact cmpN_swap a b
      | str t => rfl
  | str s =>
      cases y with
      | num b => rfl
      | str t => exact lexCmp_swap charCmp charCmp_swap s t

theorem compCmp_lt_trans : ∀ {x y z : LooseComp},
    compCmp x y = .lt → compCmp y z = .lt → compCmp x z = .lt
  | .num _, .num _, .num _, h1, h2 =>
      cmpN_lt_iff.mpr (Nat.lt_trans (cmpN_lt_iff.mp h1) (cmpN_lt_iff.mp h2))
  | .num _, .num _, .str _, _, _ => rfl
  | .num _, .str _, .num _, _, h2 => Ordering.noConfusion h2
  | .num _, .str _, .str _, _, _ => rfl
  | .str _, .num _, _, h1, _ => Ordering.noConfusion h1
  | .str _, .str _, .num _, _, h2 => Ordering.noConfusion h2
  | .str _, .str _, .str _, h1, h2 =>
      lexCmp_lt_trans charCmp (fun {_ _} => charCmp_eq)
        (fun {_ _ _} => charCmp_lt_trans) h1 h2

theorem looseCmp_swap (a b : String) : (looseCmp a b).swap = looseCmp b a :=
  lexCmp_swap compCmp compCmp_swap _ _

theorem looseR_refl (a : String) : looseR a a := by
  unfold looseR looseCmp
  rw [lexCmp_self compCmp compCmp_self]
  decide

instance : IsTotal String looseR :=
  ⟨fun a b => by
    by_cases h : looseCmp a b = .gt
    · right
      unfold looseR
      rw [← looseCmp_swap a b, h]
      decide
    · left
      exact h⟩

theorem looseCmp_le_trans {a b c : String} (h1 : looseCmp a b ≠ .gt)
    (h2 : looseCmp b c ≠ .gt) : looseCmp a c ≠ .gt := by
  rcases hab : looseCmp a b with _ | _ | _
  · rcases hbc : looseCmp b c with _ | _ | _
    · unfold looseCmp at hab hbc ⊢
      have hlt : lexCmp compCmp (looseParse a) (looseParse c) = .lt :=
        lexCmp_lt_trans compCmp (fun {x y} => compCmp_eq)
          (fun {x y z} => compCmp_lt_trans) hab hbc
      rw [hlt]
      decide
    · unfold looseCmp at hab hbc ⊢
      have hpq : looseParse b = looseParse c :=
        lexCmp_eq compCmp (fun {x y} => compCmp_eq) hbc
      rw [← hpq, hab]
      decide
    · exact absurd hbc h2
  · unfold looseCmp at hab
    have hpq : looseParse a = looseParse b :=
      lexCmp_eq compCmp (fun {x y} => compCmp_eq) hab
    unfold looseCmp at h2 ⊢
    rw [hpq]
    exact h2
  · exact absurd hab h1

instance : IsTrans String looseR :=
  ⟨fun _ _ _ h1 h2 => looseCmp_le_trans h1 h2⟩

theorem sorted_looseR_head_min (m : String) (t : List String)
    (hs : (m :: t).Sorted looseR) : ∀ x ∈ m :: t, looseR m x := by
  intro x hx
  rcases List.mem_cons.mp hx with rfl | hx2
  · exact looseR_refl x
  · exact (List.sorted_cons.mp hs).1 x hx2

/-! ### Claim C4 -/

/-- C4: for an entry passing trigger validation, `getRequiresFromUpdateItem`
returns none when the trigger's version list is absent or empty; otherwise,
with `m` a minimum of the version list under the LooseVersion ordering
(obtained by sorting), it returns none exactly when `m = "14.0.0"` and the
single-element list `["<updateName>-" ++ m]` otherwise. -/
theorem claim_C4_requires (envMunkiUpdateName : Option String) (item : Item)
    (h : sanityCheckExpectedTriggers item = .ok ()) :
    (versionsOf item = [] → getRequiresFromUpdateItem envMunkiUpdateName item = .ok none) ∧
    (versionsOf item ≠ [] → ∃ m, m ∈ versionsOf item ∧
        (∀ v ∈ versionsOf item, looseR m v) ∧
        getRequiresFromUpdateItem envMunkiUpdateName item =
          .ok (if m = "14.0.0" then none
               else some [(envMunkiUpdateName.getD MUNKI_UPDATE_NAME) ++ "-" ++ m])) := by
  constructor
  · intro he
    simp [getRequiresFromUpdateItem, h, he]
  · intro hne
    have hperm := List.perm_insertionSort looseR (versionsOf item)
    have hsne : List.insertionSort looseR (versionsOf item) ≠ [] := by
      intro h0
      have hlen := hperm.length_eq
      rw [h0] at hlen
      simp at hlen
      exact hne (List.length_eq_zero.mp hlen.symm)
    rcases hsort : List.insertionSort looseR (versionsOf item) with _ | ⟨m, t⟩
    · exact absurd hsort hsne
    · have hsorted := List.sorted_insertionSort looseR (versionsOf item)
      rw [hsort] at hsorted hperm
      refine ⟨m, hperm.subset (by simp), ?_, ?_⟩
      · intro v hv
        exact sorted_looseR_head_min m t hsorted v (hperm.mem_iff.mpr hv)
      · simp only [getRequiresFromUpdateItem, h]
        rw [if_neg hne, hsort]
        by_cases hm : m = "14.0.0"
        · simp [hm]
        · simp [hm]

theorem claim_C4_requires_witness :
    sanityCheckExpectedTriggers itemBase = .ok () ∧
    ((versionsOf itemBase = [] → getRequiresFromUpdateItem none itemBase = .ok none) ∧
     (versionsOf itemBase ≠ [] → ∃ m, m ∈ versionsOf itemBase ∧
        (∀ v ∈ versionsOf itemBase, looseR m v) ∧
        getRequiresFromUpdateItem none itemBase =
          .ok (if m = "14.0.0" then none
               else some [(Option.getD (none : Option String) MUNKI_UPDATE_NAME) ++ "-" ++ m]))) :=
  ⟨by decide, claim_C4_requires none itemBase (by decide)⟩

/-! ### Claim C5 -/

/-- C5: for an entry passing trigger validation, `getInstallsItems` returns
none when no trigger descriptor's `File` equals `"Contents/Info.plist"`, and
otherwise a single descriptor whose short version and bundle version both
equal the version extracted from the entry's title, whose path is
`"/Applications/Lync/Contents/Info.plist"`, whose kind is `"bundle"` and
whose version-comparison key is the short-version key. -/
theorem claim_C5_installs (item : Item) (h : sanityCheckExpectedTriggers item = .ok ()) :
    ((∀ kt ∈ item.triggers, kt.2.file ≠ some "Contents/Info.plist") →
        getInstallsItems item = .ok none) ∧
    ((∃ kt ∈ item.triggers, kt.2.file = some "Contents/Info.plist") →
        getInstallsItems item =
          .ok (some [{ cfBundleShortVersionString := getVersion item
                       cfBundleVersion := getVersion item
                       path := "/Applications/Lync/Contents/Info.plist"
                       type := "bundle"
                       version_comparison_key := "CFBundleShortVersionString" }])) := by
  constructor
  · intro hno
    have hc : ¬ (some "Contents/Info.plist" ∈ item.triggers.map fun kt => kt.2.file) := by
      intro hmem
      obtain ⟨kt, hkt, hfile⟩ := List.mem_map.mp hmem
      exact hno kt hkt hfile
    simp [getInstallsItems, h, hc]
  · rintro ⟨kt, hkt, hfile⟩
    have hc : some "Contents/Info.plist" ∈ item.triggers.map fun kt => kt.2.file :=
      List.mem_map.mpr ⟨kt, hkt, hfile⟩
    simp [getInstallsItems, h, hc]

theorem claim_C5_installs_witness :
    sanityCheckExpectedTriggers itemBase = .ok () ∧
    (((∀ kt ∈ itemBase.triggers, kt.2.file ≠ some "Contents/Info.plist") →
        getInstallsItems itemBase = .ok none) ∧
     ((∃ kt ∈ itemBase.triggers, kt.2.file = some "Contents/Info.plist") →
        getInstallsItems itemBase =
          .ok (some [{ cfBundleShortVersionString := getVersion itemBase
                       cfBundleVersion := getVersion itemBase
                       path := "/Applications/Lync/Contents/Info.plist"
                       type := "bundle"
                       version_comparison_key := "CFBundleShortVersionString" }]))) :=
  ⟨by decide, claim_C5_installs itemBase (by decide)⟩

/-! ### Claim C9 -/

/-- C9 counterexample: a run whose OS-version decoding fails after entry
selection still exposes `url` and `pkg_name` to the host — the output state
is not unchanged on error. -/
theorem claim_C9_cex :
    (get_lyncInstaller_info none none [itemBadMax]).2 =
      some (.processorError (.unexpectedValue (.str "0xZZ".toList))) ∧
    (get_lyncInstaller_info none none [itemBadMax]).1.url =
      some "http://example.com/a.dmg" ∧
    (get_lyncInstaller_info none none [itemBadMax]).1.pkg_name = some "a.dmg" := by
  decide

/-- C9 (amended): when any stage after entry selection fails, the run aborts
without exposing `display_name` or `additional_pkginfo` and no complete
record is returned — but `url` and `pkg_name` have already been exposed,
set to the selected entry's location and payload. -/
theorem claim_C9_amended (envVersion envMunkiUpdateName : Option String)
    (metadata : List Item) (out : OutVars) (e : PyErr)
    (h : get_lyncInstaller_info envVersion envMunkiUpdateName metadata = (out, some e)) :
    out.display_name = none ∧ out.additional_pkginfo = none ∧
    ∀ item, selectItem metadata (effectiveVersion envVersion) = .ok item →
      out.url = some item.location ∧ out.pkg_name = some item.payload := by
  simp only [get_lyncInstaller_info] at h
  rcases hsel : selectItem metadata (effectiveVersion envVersion) with e0 | item0
  · simp only [hsel] at h
    injection h with hout herr
    subst hout
    refine ⟨rfl, rfl, ?_⟩
    intro item1 hsel2
    cases hsel2
  · simp only [hsel] at h
    have hrest : ∀ item1 : Item,
        (Except.ok item0 : Except PyErr Item) = .ok item1 → item0 = item1 := by
      intro item1 hsel2
      simpa using hsel2
    rcases hmax : valueToOSVersionString item0.maxOS with e1 | mx
    · simp only [hmax] at h
      injection h with hout herr
      subst hout
      refine ⟨rfl, rfl, ?_⟩
      intro item1 hsel2
      obtain rfl := hrest item1 hsel2
      exact ⟨rfl, rfl⟩
    · simp only [hmax] at h
      rcases hmin : valueToOSVersionString item0.minOS with e2 | mn
      · simp only [hmin] at h
        injection h with hout herr
        subst hout
        refine ⟨rfl, rfl, ?_⟩
        intro item1 hsel2
        obtain rfl := hrest item1 hsel2
        exact ⟨rfl, rfl⟩
      · simp only [hmin] at h
        rcases hinst : getInstallsItems item0 with e3 | inst
        · simp only [hinst] at h
          injection h with hout herr
          subst hout
          refine ⟨rfl, rfl, ?_⟩
          intro item1 hsel2
          obtain rfl := hrest item1 hsel2
          exact ⟨rfl, rfl⟩
        · simp only [hinst] at h
          rcases hreq : getRequiresFromUpdateItem envMunkiUpdateName item0 with e4 | req
          · simp only [hreq] at h
            injection h with hout herr
            subst hout
            refine ⟨rfl, rfl, ?_⟩
            intro item1 hsel2
            obtain rfl := hrest item1 hsel2
            exact ⟨rfl, rfl⟩
          · simp only [hreq] at h
            injection h with hout herr
            cases herr

theorem claim_C9_amended_witness :
    c9OutExposed.display_name = none ∧ c9OutExposed.additional_pkginfo = none ∧
    ∀ item, selectItem [itemBadMax] (effectiveVersion none) = .ok item →
      c9OutExposed.url = some item.location ∧ c9OutExposed.pkg_name = some item.payload :=
  claim_C9_amended none none [itemBadMax] c9OutExposed
    (.processorError (.unexpectedValue (.str "0xZZ".toList))) (by decide)

end MSLync
